import Mathlib

/-!
Verification of the chunked XGBoost training pipeline in
`backend-ml/app/utils/chunked_processor.py` (class `ChunkedXGBoostProcessor`).

The Python source is shallowly embedded.  Machine floats that can carry
NaN/infinity are modelled by `PyFloat` (finite values as exact rationals);
pandas data frames by explicit column lists; the DuckDB `LIMIT/OFFSET`
queries by row ranges over an ordered table; and the seeded random helpers
(`train_test_split(..., random_state=42)`, `np.random.RandomState(42)`,
`DataFrame.sample(..., random_state=42)`) by explicit sampler parameters.
Python `int(x)` on the nonnegative values appearing here is `Int.floor`.
-/

namespace ChunkedProcessor

/-! ### Chunk plan arithmetic (`_process_in_chunks`, lines 261-340) -/

/-- Model of `train_rows = int(total_rows * (1 - test_size))`
(`_process_in_chunks`, line 268).  For `test_size` between 0 and 1 the value
is nonnegative, so Python truncation agrees with the floor used here. -/
def trainRowsOf (total : ℕ) (test_size : ℚ) : ℕ :=
  (⌊(total : ℚ) * (1 - test_size)⌋).toNat

/-- Offset of the test query: `test_offset = train_rows` (line 271). -/
def testOffset (train_rows : ℕ) : ℕ := train_rows

/-- Row count of the test query: `LIMIT total_rows - train_rows` (line 274). -/
def testLimit (total train_rows : ℕ) : ℕ := total - train_rows

/-- Offset of training chunk `i`: `offset = chunk_idx * rows_per_chunk`
(line 331; the first chunk uses `OFFSET 0`, which is the same formula at
`i = 0`). -/
def chunkOffset (rows_per_chunk i : ℕ) : ℕ := i * rows_per_chunk

/-- Row count of training chunk `i`:
`limit = min(rows_per_chunk, train_rows - offset)` (lines 301 and 332),
kept as an integer because the Python value can be negative. -/
def chunkLimit (train_rows rows_per_chunk i : ℕ) : ℤ :=
  min (rows_per_chunk : ℤ)
    ((train_rows : ℤ) - ((chunkOffset rows_per_chunk i : ℕ) : ℤ))

/-- Row index `r` lies in the row range of training chunk `i`. -/
def inChunkRange (train_rows rows_per_chunk i r : ℕ) : Prop :=
  chunkOffset rows_per_chunk i ≤ r ∧
    (r : ℤ) < ((chunkOffset rows_per_chunk i : ℕ) : ℤ) +
      chunkLimit train_rows rows_per_chunk i

/-- Row index `r` lies in the held-out test block
(`LIMIT total_rows - train_rows OFFSET train_rows`, lines 272-275). -/
def inTestRange (total train_rows r : ℕ) : Prop :=
  train_rows ≤ r ∧ r < total

/-- Number of chunks:
`num_chunks = (train_rows + rows_per_chunk - 1) // rows_per_chunk`
(line 291). -/
def numChunks (train_rows rows_per_chunk : ℕ) : ℕ :=
  (train_rows + rows_per_chunk - 1) / rows_per_chunk

/-! ### Boosting-round schedule (`_process_in_chunks`, lines 320-385) -/

/-- One `xgb.train` call of the chunked loop: how many boosting rounds it ran
and whether it continued the existing ensemble (`xgb_model=self.model`). -/
structure BoostStep where
  rounds : ℕ
  warmStart : Bool
  deriving DecidableEq, Repr

/-- Trace of `xgb.train` calls in `_process_in_chunks`: the first chunk
initializes a fresh model with `num_boost_round=100 // num_chunks`
(line 322); then `for chunk_idx in range(1, num_chunks)` continues the same
model for another `100 // num_chunks` rounds (lines 330-377), breaking out
of the loop at the first chunk whose computed `limit` is not positive
(lines 332-335). -/
def boostTrace (train_rows rows_per_chunk : ℕ) : List BoostStep :=
  let nc := numChunks train_rows rows_per_chunk
  ⟨100 / nc, false⟩ ::
    (((List.range nc).drop 1).takeWhile
        (fun i => decide (0 < chunkLimit train_rows rows_per_chunk i))).map
      (fun _ => ⟨100 / nc, true⟩)

/-! ### Metric sanitization (`_process_all_data` lines 226-231,
`_process_in_chunks` lines 447-453) -/

/-- Model of a Python/NumPy double: a finite value (exact rational), a signed
infinity, or NaN. -/
inductive PyFloat where
  | finite (val : ℚ)
  | infinite (neg : Bool)
  | nan
  deriving DecidableEq, Repr

/-- Model of `np.isinf`. -/
def PyFloat.isinf : PyFloat → Bool
  | .infinite _ => true
  | _ => false

/-- Model of `np.isnan`. -/
def PyFloat.isnan : PyFloat → Bool
  | .nan => true
  | _ => false

/-- A `PyFloat` is finite when it is neither an infinity nor NaN. -/
def PyFloat.isFinite : PyFloat → Bool
  | .finite _ => true
  | _ => false

/-- Model of the guard
`float(x) if not np.isinf(x) and not np.isnan(x) else 0.0`
applied to each metric. -/
def sanitizeMetric (x : PyFloat) : PyFloat :=
  if x.isinf || x.isnan then .finite 0 else x

/-- The four metric values of the returned `self.metrics` dictionary. -/
structure MetricsRecord where
  test_rmse : PyFloat
  test_r2 : PyFloat
  train_rmse : PyFloat
  train_r2 : PyFloat
  deriving DecidableEq, Repr

/-- Construction of `self.metrics` from the raw metric values, as written
identically at lines 226-231 (full-batch path) and 447-453 (chunked path). -/
def buildMetrics (test_rmse test_r2 train_rmse train_r2 : PyFloat) :
    MetricsRecord :=
  ⟨sanitizeMetric test_rmse, sanitizeMetric test_r2,
   sanitizeMetric train_rmse, sanitizeMetric train_r2⟩

/-! ### Chunk-size estimation (`_estimate_rows_per_memory`, lines 132-153,
and its call site in `process_parquet_bytes`, line 114) -/

/-- Model of `_estimate_rows_per_memory`.  `sampleBytes k` is the
`memory_usage(deep=True).sum()` in bytes of the first `k` rows
(`table.slice(0, sample_size).to_pandas()`).  The sample is the first
`min(1000, num_rows)` rows; `memory_per_row` is in MB; the result is
`max(1000, int(target_mb / memory_per_row))`, or the fallback `10000` for an
empty sample. -/
def estimateRowsPerMemory (numRows : ℕ) (sampleBytes : ℕ → ℚ)
    (target_mb : ℚ) : ℕ :=
  let sample_size := min 1000 numRows
  if 0 < sample_size then
    let memory_per_row := sampleBytes sample_size / (sample_size : ℚ) /
      (1024 * 1024)
    max 1000 (⌊target_mb / memory_per_row⌋).toNat
  else 10000

/-- Chunk-size planning as called from `process_parquet_bytes` (line 114):
`rows_per_25mb = await self._estimate_rows_per_memory(buffer, 25)`.
The configured `max_memory_mb` is passed along here to record
that it is in scope at the call site, but the call hard-codes a 25 MB
target and never reads the configured budget. -/
def plannedRowsPerChunk (max_memory_mb : ℕ) (numRows : ℕ)
    (sampleBytes : ℕ → ℚ) : ℕ :=
  (fun (_ : ℕ) => estimateRowsPerMemory numRows sampleBytes 25) max_memory_mb

/-! ### Feature-schema alignment (`_process_in_chunks`, lines 350-364 for
training chunks and lines 425-437 for the test block) -/

/-- One column of an encoded feature matrix. -/
structure FeatureCol where
  name : String
  values : List ℚ
  deriving DecidableEq, Repr

/-- Whether the matrix has a column named `n` (`n in X.columns`). -/
def hasCol (X : List FeatureCol) (n : String) : Bool :=
  X.any (fun c => decide (c.name = n))

/-- An all-zero column, as produced by `pd.DataFrame(0, index=..., columns=...)`. -/
def zeroCol (nrows : ℕ) (n : String) : FeatureCol :=
  ⟨n, List.replicate nrows 0⟩

/-- Model of
`missing_features = set(self.feature_names) - set(X.columns)` followed by
`X = pd.concat([X, pd.DataFrame(0, index=X.index, columns=list(missing_features))], axis=1)`. -/
def addMissingFeatures (schema : List String) (X : List FeatureCol)
    (nrows : ℕ) : List FeatureCol :=
  X ++ (schema.filter (fun n => !(hasCol X n))).map (zeroCol nrows)

/-- Model of the reordering `X = X[self.feature_names]`. -/
def reindexToSchema (schema : List String) (X : List FeatureCol) :
    List FeatureCol :=
  schema.filterMap (fun n => X.find? (fun c => decide (c.name = n)))

/-- The complete per-block alignment step: add zero columns for missing
schema features, then reorder the columns to the Feature Schema. -/
def alignToSchema (schema : List String) (X : List FeatureCol) (nrows : ℕ) :
    List FeatureCol :=
  reindexToSchema schema (addMissingFeatures schema X nrows)

/-! ### Feature importance (`get_feature_importance`, lines 637-676) -/

/-- The normalization denominator:
`total_importance = sum(importance_scores.values())`, with the zero-sum
guard `if total_importance == 0: total_importance = 1` (lines 650-652).
Gain scores are finite nonnegative doubles, embedded as exact rationals, so
the defensive `np.isinf(score) or np.isnan(score)` branch of line 658 is
the identity here. -/
def importanceDenom (scores : List (String × ℚ)) : ℚ :=
  if (scores.map (fun p => p.2)).sum = 0 then 1
  else (scores.map (fun p => p.2)).sum

/-- The entry list built by the `for feature in self.feature_names` loop
(lines 654-671), before sorting. -/
def featureImportanceUnsorted (featureNames : List String)
    (scores : List (String × ℚ)) : List (String × ℚ) :=
  featureNames.map (fun f =>
    match scores.find? (fun p => decide (p.1 = f)) with
    | some p => (f, p.2 / importanceDenom scores)
    | none => (f, 0))

/-- Model of `get_feature_importance`: build the per-feature entries, then
`feature_importance.sort(key=importance, reverse=True)` —
a stable descending sort, modelled by `List.mergeSort`. -/
def get_feature_importance (featureNames : List String)
    (scores : List (String × ℚ)) : List (String × ℚ) :=
  (featureImportanceUnsorted featureNames scores).mergeSort
    (fun a b => decide (b.2 ≤ a.2))

/-! ### Raw blocks and categorical encoding (`_extract_date_features`
lines 477-512, `_prepare_data` lines 514-531, `_apply_transformations`
lines 533-541) -/

/-- The pandas dtype classes relevant to the encoder. -/
inductive Dtype where
  | datetime
  | numeric
  | boolean
  | object
  deriving DecidableEq, Repr

/-- One raw data-frame column: name, dtype, and cell values (rendered as
strings; only categorical cell values are inspected by the encoder). -/
structure RawCol where
  name : String
  dtype : Dtype
  cells : List String
  deriving DecidableEq, Repr

/-- A raw data-frame block. -/
structure Block where
  cols : List RawCol
  deriving DecidableEq, Repr

/-- Model of `df.drop(col, axis=1)`. -/
def dropColumn (b : Block) (n : String) : Block :=
  ⟨b.cols.filter (fun c => !(decide (c.name = n)))⟩

/-- Model of `_extract_date_features`: if the date column is present it is
converted to datetime (`parses` models per-value `pd.to_datetime` success)
and dropped; if the conversion raises, the block is returned unchanged with
the date column still in place (lines 487-491). -/
def extractDateFeatures (parses : String → Bool) (b : Block)
    (dateCol : String) : Block :=
  match b.cols.find? (fun c => decide (c.name = dateCol)) with
  | none => b
  | some c =>
    if c.dtype = Dtype.datetime then dropColumn b dateCol
    else if c.cells.all parses then dropColumn b dateCol
    else b

/-- Model of `df.select_dtypes(include=object).columns.tolist()`. -/
def categoricalColumns (b : Block) : List String :=
  (b.cols.filter (fun c => decide (c.dtype = Dtype.object))).map
    (fun c => c.name)

/-- Lexicographic comparison of character lists by code point, the order
pandas uses on string levels. -/
def charListLe : List Char → List Char → Bool
  | [], _ => true
  | _ :: _, [] => false
  | a :: as, b :: bs =>
    if a.toNat < b.toNat then true
    else if b.toNat < a.toNat then false
    else charListLe as bs

/-- Lexicographic string comparison. -/
def strLe (a b : String) : Bool :=
  charListLe a.data b.data

/-- Insertion into a sorted list of strings. -/
def insertSortedStr (v : String) : List String → List String
  | [] => [v]
  | x :: xs => if strLe v x then v :: x :: xs else x :: insertSortedStr v xs

/-- Insertion sort of strings in ascending lexicographic order. -/
def sortStrings : List String → List String
  | [] => []
  | x :: xs => insertSortedStr x (sortStrings xs)

/-- Distinct cell values in ascending order, the level order used by
`pd.get_dummies`. -/
def levelsSorted (cells : List String) : List String :=
  sortStrings cells.dedup

/-- The dummy columns produced for one categorical column by
`pd.get_dummies(..., drop_first=True)`: one indicator per level except the
first, named `col_level`. -/
def dummyColumns (c : RawCol) : List RawCol :=
  ((levelsSorted c.cells).drop 1).map (fun v =>
    ⟨c.name ++ "_" ++ v, Dtype.boolean,
     c.cells.map (fun x => if x = v then ("1") else ("0"))⟩)

/-- Model of `pd.get_dummies(df, columns=cats, drop_first=True)`: columns
not listed are kept, listed columns are replaced by their dummy columns. -/
def getDummies (b : Block) (cats : List String) : Block :=
  ⟨b.cols.filter (fun c => !(decide (c.name ∈ cats))) ++
    (cats.filterMap
        (fun n => b.cols.find? (fun c => decide (c.name = n)))).flatMap
      dummyColumns⟩

/-- Model of `_prepare_data`: discover the categorical columns, one-hot
encode them, and return the encodings record. -/
def prepareData (b : Block) : Block × List String :=
  (getDummies b (categoricalColumns b), categoricalColumns b)

/-- Model of `_apply_transformations`: replay one-hot encoding for the
recorded categorical columns that are present in this block. -/
def applyTransformations (b : Block) (cats : List String) : Block :=
  getDummies b
    (cats.filter (fun n => b.cols.any (fun c => decide (c.name = n))))

/-! ### Block structure of the chunked pipeline -/

/-- An ordered table as registered with DuckDB: column names, a dtype per
column (fixed by the parquet schema, hence shared by every block read from
the table), and a cell value per column and absolute row index. -/
structure TableModel where
  names : List String
  dtypeOf : String → Dtype
  cellAt : String → ℕ → String

/-- The block returned by `SELECT ... LIMIT nrows OFFSET offset`. -/
def blockOf (t : TableModel) (offset nrows : ℕ) : Block :=
  ⟨t.names.map (fun n =>
    ⟨n, t.dtypeOf n, (List.range nrows).map (fun i => t.cellAt n (offset + i))⟩)⟩

/-- The Categorical Encoding Map of the chunked path.  The code derives it
from the held-out test block: `test_df, categorical_encodings =
self._prepare_data(test_df)` (line 281), after date extraction
(line 279). -/
def chunkedEncodingMap (parses : String → Bool) (t : TableModel)
    (dateCol : String) (train_rows total : ℕ) : List String :=
  (prepareData
    (extractDateFeatures parses
      (blockOf t (testOffset train_rows) (testLimit total train_rows))
      dateCol)).2

/-- The transformation applied to every training chunk (first chunk at
line 308, later chunks at line 347): date extraction followed by replaying
the recorded encoding map. -/
def encodeTrainingChunk (parses : String → Bool) (t : TableModel)
    (dateCol : String) (cats : List String) (offset nrows : ℕ) : Block :=
  applyTransformations
    (extractDateFeatures parses (blockOf t offset nrows) dateCol) cats

/-! ### Explainability sampling (`_generate_shap_plots`, lines 552-626) -/

/-- Model of lines 559-560:
`sample_size = min(100, len(X_test))` and
`X_sample = X_test.sample(sample_size, random_state=42) if len(X_test) >
sample_size else X_test`.  `testRows` are the row ids of the test block and
`sampler n k` models the fixed-seed positional sample of `k` of `n` rows. -/
def shapSample (sampler : ℕ → ℕ → List ℕ) (testRows : List ℕ) : List ℕ :=
  let sample_size := min 100 testRows.length
  if sample_size < testRows.length then
    (sampler testRows.length sample_size).map (fun i => testRows.getD i 0)
  else testRows

/-- Model of `np.argsort(y_pred)` as reordering the sampled rows into
ascending predicted-value order (`pred` is the model prediction per row). -/
def argsortBy (pred : ℕ → ℚ) (rows : List ℕ) : List ℕ :=
  rows.mergeSort (fun i j => decide (pred i ≤ pred j))

/-- Model of lines 588-600: when the sample has at least 3 rows, pick the
rows at positions `int(n * 0.1)`, `int(n * 0.5)`, `int(n * 0.9)` of the
prediction-ascending order; otherwise produce nothing.  Since the sample
has at most 100 rows, the float products agree with `n / 10`, `n / 2` and
`n * 9 / 10` in natural-number arithmetic. -/
def shapForceRows (pred : ℕ → ℚ) (sample : List ℕ) :
    Option (ℕ × ℕ × ℕ) :=
  if 3 ≤ sample.length then
    let sorted := argsortBy pred sample
    some (sorted.getD (sample.length / 10) 0,
          sorted.getD (sample.length / 2) 0,
          sorted.getD (sample.length * 9 / 10) 0)
  else none

/-- The keys present in the returned `result` dictionary of
`_generate_shap_plots`, as a function of the sample size: bar and beeswarm
always, the single waterfall when the sample is nonempty (line 581), and
the low/medium/high breakdowns only when the sample has at least 3 rows
(line 588). -/
def shapPlotKeys (nSample : ℕ) : List String :=
  ["bar_plot", "beeswarm_plot"] ++
    (if 0 < nSample then ["waterfall_plot"] else []) ++
    (if 3 ≤ nSample then
      ["waterfall_plot_low", "waterfall_plot_medium", "waterfall_plot_high"]
    else [])

/-! ### Seed usage (`__init__` line 49, `_process_all_data` line 196,
`_process_in_chunks` line 400, `_generate_shap_plots` line 560) -/

/-- The behaviour of the library random sources at one seed:
`train_test_split`, `np.random.RandomState(seed).choice`, and
`DataFrame.sample(..., random_state=seed)`. -/
structure SeededSampler where
  ttsplit : ℕ → ℚ → List ℕ × List ℕ
  choice : ℕ → ℕ → List ℕ
  dfSample : ℕ → ℕ → List ℕ

/-- A family of seeded samplers, one per seed. -/
abbrev RandomOracle := ℕ → SeededSampler

/-- Model of line 398:
`chunk_sample_size = min(len(X_chunk), max(100, int(len(X_chunk) * 0.2)))`. -/
def chunkSampleSize (len : ℕ) : ℕ :=
  min len (max 100 (⌊(len : ℚ) * (2 / 10)⌋).toNat)

/-- Every data-dependent random selection made by `process_parquet_bytes`:
the full-batch train/test split (line 196, `random_state=42`), the
per-chunk training-metric sample indices (line 400,
`np.random.RandomState(42).choice`), and the explainability sample
(line 560, `random_state=42`).  Each call consults the oracle only at the
literal seed 42. -/
def runSelections (o : RandomOracle) (nRows : ℕ) (test_size : ℚ)
    (chunkLens : List ℕ) (nTest : ℕ) :
    (List ℕ × List ℕ) × List (List ℕ) × List ℕ :=
  ((o 42).ttsplit nRows test_size,
   chunkLens.map (fun len => (o 42).choice len (chunkSampleSize len)),
   if 100 < nTest then (o 42).dfSample nTest 100 else List.range nTest)

/-! ### Helper lemmas -/

theorem find?_append_some {p : α → Bool} {l₁ l₂ : List α} {a : α}
    (h : l₁.find? p = some a) : (l₁ ++ l₂).find? p = some a := by
  simp [List.find?_append, h]

theorem find?_append_none {p : α → Bool} {l₁ l₂ : List α}
    (h : l₁.find? p = none) : (l₁ ++ l₂).find? p = l₂.find? p := by
  simp [List.find?_append, h]

theorem find?_eq_of_mem {l : List String} {m : String} (h : m ∈ l) :
    l.find? (fun x => decide (x = m)) = some m := by
  induction l with
  | nil => cases h
  | cons x xs ih =>
    by_cases hx : x = m
    · subst hx; simp [List.find?_cons]
    · have hm : m ∈ xs := by
        rcases List.mem_cons.mp h with h1 | h1
        · exact absurd h1.symm hx
        · exact h1
      simp [List.find?_cons, hx, ih hm]

/-- If `i` is below the ceiling-division chunk count, its chunk offset is
still inside the training rows. -/
theorem offset_lt_of_lt_numChunks {train_rows rows_per_chunk i : ℕ}
    (hrpc : 0 < rows_per_chunk)
    (hi : i < numChunks train_rows rows_per_chunk) :
    i * rows_per_chunk < train_rows := by
  by_contra hle
  push_neg at hle
  have hmono : numChunks train_rows rows_per_chunk ≤
      (rows_per_chunk - 1 + i * rows_per_chunk) / rows_per_chunk :=
    Nat.div_le_div_right (by omega)
  rw [Nat.add_mul_div_right _ _ hrpc, Nat.div_eq_of_lt (by omega)] at hmono
  omega

/-! ### C1 : train/test separation of the chunked split -/

/-- C1.  In the chunked path the held-out test block is exactly the last
`total_rows - int(total_rows * (1 - test_size))` contiguous rows, at offset
`train_rows`, and the row range of every training chunk
`[chunk_idx * rows_per_chunk, chunk_idx * rows_per_chunk + limit)` lies
inside `[0, train_rows)`; hence no test-block row index appears in any
training chunk row range. -/
theorem chunked_split_no_leakage (total : ℕ) (test_size : ℚ)
    (rows_per_chunk i r : ℕ)
    (h : inChunkRange (trainRowsOf total test_size) rows_per_chunk i r) :
    testOffset (trainRowsOf total test_size) = trainRowsOf total test_size ∧
    testLimit total (trainRowsOf total test_size) =
      total - trainRowsOf total test_size ∧
    r < trainRowsOf total test_size ∧
    ¬ inTestRange total (trainRowsOf total test_size) r := by
  have h2 := h.2
  have hm : chunkLimit (trainRowsOf total test_size) rows_per_chunk i ≤
      ((trainRowsOf total test_size : ℕ) : ℤ) -
        ((chunkOffset rows_per_chunk i : ℕ) : ℤ) := min_le_right _ _
  have hr : r < trainRowsOf total test_size := by
    have : (r : ℤ) < ((trainRowsOf total test_size : ℕ) : ℤ) := by omega
    exact_mod_cast this
  exact ⟨rfl, rfl, hr, fun hc => absurd hr (not_lt.mpr hc.1)⟩

theorem chunked_split_no_leakage_witness :
    inChunkRange (trainRowsOf 10 0) 3 1 4 ∧
    (testOffset (trainRowsOf 10 0) = trainRowsOf 10 0 ∧
     testLimit 10 (trainRowsOf 10 0) = 10 - trainRowsOf 10 0 ∧
     4 < trainRowsOf 10 0 ∧ ¬ inTestRange 10 (trainRowsOf 10 0) 4) := by
  have htr : trainRowsOf 10 0 = 10 := by
    norm_num [trainRowsOf]
    decide
  have h : inChunkRange (trainRowsOf 10 0) 3 1 4 := by
    constructor
    · norm_num [chunkOffset]
    · norm_num [htr, chunkOffset, chunkLimit]
  exact ⟨h, chunked_split_no_leakage 10 0 3 1 4 h⟩

/-! ### C3 : boosting-round allocation across chunks -/

/-- C3.  The configured 100 boosting rounds are divided evenly across
`num_chunks`: the first chunk initializes a fresh ensemble trained for
`100 // num_chunks` rounds, every later chunk warm-starts the same ensemble
for another `100 // num_chunks` rounds, no chunk terminates the loop early,
and the total number of rounds applied is `100` minus the integer-division
rounding loss `100 % num_chunks`. -/
theorem boosting_round_allocation (train_rows rows_per_chunk : ℕ)
    (htr : 0 < train_rows) (hrpc : 0 < rows_per_chunk) :
    (boostTrace train_rows rows_per_chunk).length =
      numChunks train_rows rows_per_chunk ∧
    (boostTrace train_rows rows_per_chunk).head? =
      some ⟨100 / numChunks train_rows rows_per_chunk, false⟩ ∧
    (∀ s ∈ (boostTrace train_rows rows_per_chunk).tail,
      s = ⟨100 / numChunks train_rows rows_per_chunk, true⟩) ∧
    ((boostTrace train_rows rows_per_chunk).map (fun s => s.rounds)).sum =
      100 - 100 % numChunks train_rows rows_per_chunk := by
  have hnc : 0 < numChunks train_rows rows_per_chunk :=
    Nat.div_pos (by omega) hrpc
  have hall : ((List.range (numChunks train_rows rows_per_chunk)).drop
      1).takeWhile
        (fun i => decide (0 < chunkLimit train_rows rows_per_chunk i)) =
      (List.range (numChunks train_rows rows_per_chunk)).drop 1 := by
    rw [List.takeWhile_eq_self_iff]
    intro i hi
    have hmem : i ∈ List.range (numChunks train_rows rows_per_chunk) :=
      List.mem_of_mem_drop hi
    have hilt := List.mem_range.mp hmem
    have hofs := offset_lt_of_lt_numChunks hrpc hilt
    simp only [decide_eq_true_eq, chunkLimit, chunkOffset, lt_min_iff]
    constructor
    · exact_mod_cast hrpc
    · have : ((i * rows_per_chunk : ℕ) : ℤ) < (train_rows : ℤ) := by
        exact_mod_cast hofs
      omega
  have hlen : (boostTrace train_rows rows_per_chunk).length =
      numChunks train_rows rows_per_chunk := by
    simp only [boostTrace, hall, List.length_cons, List.length_map,
      List.length_drop, List.length_range]
    omega
  refine ⟨hlen, by simp [boostTrace], ?_, ?_⟩
  · intro s hs
    simp only [boostTrace, hall, List.tail_cons, List.mem_map] at hs
    obtain ⟨i, _, rfl⟩ := hs
    rfl
  · have hmap : (boostTrace train_rows rows_per_chunk).map
        (fun s => s.rounds) =
        List.replicate (numChunks train_rows rows_per_chunk)
          (100 / numChunks train_rows rows_per_chunk) := by
      simp only [boostTrace, hall, List.map_cons, List.map_map]
      rw [show ((fun s : BoostStep => s.rounds) ∘ fun _ : ℕ =>
          (⟨100 / numChunks train_rows rows_per_chunk, true⟩ : BoostStep)) =
          fun _ : ℕ => 100 / numChunks train_rows rows_per_chunk from rfl]
      rw [List.map_const']
      simp only [List.length_drop, List.length_range]
      rw [← List.replicate_succ]
      congr 1
      omega
    rw [hmap, List.sum_replicate, smul_eq_mul]
    have := Nat.div_add_mod 100 (numChunks train_rows rows_per_chunk)
    omega

theorem boosting_round_allocation_witness :
    0 < 5 ∧ 0 < 3 ∧
    ((boostTrace 5 3).length = numChunks 5 3 ∧
     (boostTrace 5 3).head? = some ⟨100 / numChunks 5 3, false⟩ ∧
     (∀ s ∈ (boostTrace 5 3).tail, s = ⟨100 / numChunks 5 3, true⟩) ∧
     ((boostTrace 5 3).map (fun s => s.rounds)).sum =
       100 - 100 % numChunks 5 3) :=
  ⟨by decide, by decide,
   boosting_round_allocation 5 3 (by decide) (by decide)⟩

/-! ### C4 : metric finiteness -/

/-- C4.  Every metrics record returned by either path has four finite
values: each raw RMSE/R² that evaluates to infinite or NaN is replaced with
0.0, uniformly for train and test metrics, before the record is returned. -/
theorem metrics_always_finite (a b c d : PyFloat) :
    ((buildMetrics a b c d).test_rmse.isFinite = true ∧
     (buildMetrics a b c d).test_r2.isFinite = true ∧
     (buildMetrics a b c d).train_rmse.isFinite = true ∧
     (buildMetrics a b c d).train_r2.isFinite = true) ∧
    (buildMetrics a b c d).test_rmse =
      (if a.isinf || a.isnan then PyFloat.finite 0 else a) ∧
    (buildMetrics a b c d).test_r2 =
      (if b.isinf || b.isnan then PyFloat.finite 0 else b) ∧
    (buildMetrics a b c d).train_rmse =
      (if c.isinf || c.isnan then PyFloat.finite 0 else c) ∧
    (buildMetrics a b c d).train_r2 =
      (if d.isinf || d.isnan then PyFloat.finite 0 else d) := by
  have hfin : ∀ x : PyFloat, (sanitizeMetric x).isFinite = true := by
    intro x
    cases x <;> rfl
  exact ⟨⟨hfin a, hfin b, hfin c, hfin d⟩, rfl, rfl, rfl, rfl⟩

/-! ### C2 : feature-schema alignment per block -/

theorem addMissing_find_of_hasCol {schema : List String}
    {X : List FeatureCol} {k : ℕ} {m : String} (hc : hasCol X m = true) :
    ∃ c, (addMissingFeatures schema X k).find?
        (fun c => decide (c.name = m)) = some c ∧ c.name = m := by
  rw [hasCol, List.any_eq_true] at hc
  obtain ⟨c0, hc0, hp⟩ := hc
  have hsome : (X.find? (fun c => decide (c.name = m))).isSome = true := by
    rw [List.find?_isSome]
    exact ⟨c0, hc0, hp⟩
  obtain ⟨c, hcfind⟩ := Option.isSome_iff_exists.mp hsome
  refine ⟨c, ?_, ?_⟩
  · exact find?_append_some hcfind
  · simpa using List.find?_some hcfind

theorem addMissing_find_of_missing {schema : List String}
    {X : List FeatureCol} {k : ℕ} {m : String} (hm : m ∈ schema)
    (hc : hasCol X m = false) :
    (addMissingFeatures schema X k).find? (fun c => decide (c.name = m)) =
      some (zeroCol k m) := by
  have hX : X.find? (fun c => decide (c.name = m)) = none := by
    rw [List.find?_eq_none]
    intro c hcX
    rw [hasCol, List.any_eq_false] at hc
    exact fun hp => hc c hcX hp
  rw [addMissingFeatures, find?_append_none hX, List.find?_map]
  have hmem : m ∈ schema.filter (fun n => !(hasCol X n)) :=
    List.mem_filter.mpr ⟨hm, by simp [hc]⟩
  have hcomp : ((fun c : FeatureCol => decide (c.name = m)) ∘ zeroCol k) =
      fun n => decide (n = m) := rfl
  rw [hcomp, find?_eq_of_mem hmem]
  rfl

theorem reindex_names_eq {Y : List FeatureCol} :
    ∀ {schema : List String},
    (∀ m ∈ schema, ∃ c,
      Y.find? (fun c => decide (c.name = m)) = some c ∧ c.name = m) →
    (reindexToSchema schema Y).map (fun c => c.name) = schema := by
  intro schema
  induction schema with
  | nil => intro _; rfl
  | cons m rest ih =>
    intro h
    obtain ⟨c, hc, hname⟩ := h m (List.mem_cons_self m rest)
    rw [reindexToSchema, List.filterMap_cons, hc]
    simp only [List.map_cons, hname]
    rw [show List.filterMap
        (fun n => Y.find? (fun c => decide (c.name = n))) rest =
        reindexToSchema rest Y from rfl]
    rw [ih (fun m' hm' => h m' (List.mem_cons_of_mem _ hm'))]

/-- C2.  For every block aligned against the Feature Schema (each chunk
after the first, lines 350-364, and the test block, lines 425-437), the
matrix actually passed to training or evaluation has exactly the schema
columns in the same name, count and order, and every schema feature absent
from the encoded output of the block is present as an all-zero column. -/
theorem schema_alignment (schema : List String) (X : List FeatureCol)
    (nrows : ℕ) :
    (alignToSchema schema X nrows).map (fun c => c.name) = schema ∧
    (alignToSchema schema X nrows).length = schema.length ∧
    (∀ n ∈ schema, hasCol X n = false →
      zeroCol nrows n ∈ alignToSchema schema X nrows) := by
  have hfind : ∀ m ∈ schema, ∃ c,
      (addMissingFeatures schema X nrows).find?
        (fun c => decide (c.name = m)) = some c ∧ c.name = m := by
    intro m hm
    cases hc : hasCol X m with
    | true => exact addMissing_find_of_hasCol hc
    | false => exact ⟨zeroCol nrows m, addMissing_find_of_missing hm hc, rfl⟩
  have hnames := reindex_names_eq hfind
  have hlen : (alignToSchema schema X nrows).length = schema.length := by
    have := congrArg List.length hnames
    simpa using this
  refine ⟨hnames, hlen, ?_⟩
  intro n hn hmiss
  exact List.mem_filterMap.mpr ⟨n, hn, addMissing_find_of_missing hn hmiss⟩

theorem schema_alignment_witness :
    ((alignToSchema ["a", "b"] [FeatureCol.mk ("a") [1, 2]] 2).map
        (fun c => c.name) = ["a", "b"] ∧
     (alignToSchema ["a", "b"] [FeatureCol.mk ("a") [1, 2]] 2).length =
       (["a", "b"] : List String).length) ∧
    ("b" ∈ (["a", "b"] : List String) ∧
     hasCol [FeatureCol.mk ("a") [1, 2]] ("b") = false) ∧
    zeroCol 2 ("b") ∈
      alignToSchema ["a", "b"] [FeatureCol.mk ("a") [1, 2]] 2 := by
  have h := schema_alignment ["a", "b"] [FeatureCol.mk ("a") [1, 2]] 2
  exact ⟨⟨h.1, h.2.1⟩, ⟨by simp, by rfl⟩, h.2.2 ("b") (by simp) (by rfl)⟩

/-! ### C5 : feature-importance normalization and ordering -/

/-- C5.  The returned feature-importance table has one entry per Feature
Schema feature; a feature absent from the gain scores (never split upon) is
reported at exactly 0.0; a present feature is reported at its gain score
divided by the sum of all gain scores (denominator 1 when the sum is 0);
with nonnegative gain scores every importance lies in `[0, 1]`; and the
list is non-increasing in importance, with ties kept in Feature Schema
order by the stable sort. -/
theorem feature_importance_contract (featureNames : List String)
    (scores : List (String × ℚ)) (hnn : ∀ p ∈ scores, 0 ≤ p.2) :
    ((get_feature_importance featureNames scores).map (fun e => e.1)).Perm
      featureNames ∧
    (∀ f ∈ featureNames, scores.find? (fun p => decide (p.1 = f)) = none →
      (f, (0 : ℚ)) ∈ get_feature_importance featureNames scores) ∧
    (∀ f p, f ∈ featureNames →
      scores.find? (fun q => decide (q.1 = f)) = some p →
      (f, p.2 / importanceDenom scores) ∈
        get_feature_importance featureNames scores) ∧
    (∀ e ∈ get_feature_importance featureNames scores,
      0 ≤ e.2 ∧ e.2 ≤ 1) ∧
    (get_feature_importance featureNames scores).Pairwise
      (fun a b => b.2 ≤ a.2) ∧
    (∀ v : ℚ,
      ((featureImportanceUnsorted featureNames scores).filter
        (fun e => decide (e.2 = v))).Sublist
        (get_feature_importance featureNames scores)) := by
  have htrans : ∀ a b c : String × ℚ, decide (b.2 ≤ a.2) = true →
      decide (c.2 ≤ b.2) = true → decide (c.2 ≤ a.2) = true := by
    intro a b c hab hbc
    simp only [decide_eq_true_eq] at hab hbc ⊢
    exact le_trans hbc hab
  have htotal : ∀ a b : String × ℚ,
      (decide (b.2 ≤ a.2) || decide (a.2 ≤ b.2)) = true := by
    intro a b
    simpa using le_total b.2 a.2
  have hperm : (get_feature_importance featureNames scores).Perm
      (featureImportanceUnsorted featureNames scores) :=
    List.mergeSort_perm _ _
  have hUnames : (featureImportanceUnsorted featureNames scores).map
      (fun e => e.1) = featureNames := by
    unfold featureImportanceUnsorted
    rw [List.map_map]
    have h1 : ∀ f ∈ featureNames,
        ((fun e : String × ℚ => e.1) ∘ fun f =>
          match scores.find? (fun p => decide (p.1 = f)) with
          | some p => (f, p.2 / importanceDenom scores)
          | none => (f, (0 : ℚ))) f = id f := by
      intro f _
      cases hf : scores.find? (fun p => decide (p.1 = f)) <;>
        simp [Function.comp, hf]
    rw [List.map_congr_left h1, List.map_id]
  have hsumnn : 0 ≤ (scores.map (fun q => q.2)).sum := by
    apply List.sum_nonneg
    intro x hx
    obtain ⟨q, hq, rfl⟩ := List.mem_map.mp hx
    exact hnn q hq
  refine ⟨?_, ?_, ?_, ?_, ?_, ?_⟩
  · have h2 := hperm.map (fun e => e.1)
    rwa [hUnames] at h2
  · intro f hf hnone
    apply (List.mem_mergeSort).mpr
    exact List.mem_map.mpr ⟨f, hf, by simp [hnone]⟩
  · intro f p hf hsome
    apply (List.mem_mergeSort).mpr
    exact List.mem_map.mpr ⟨f, hf, by simp [hsome]⟩
  · intro e he
    have heU : e ∈ featureImportanceUnsorted featureNames scores :=
      (List.mem_mergeSort).mp he
    obtain ⟨f, _, hfe⟩ := List.mem_map.mp heU
    cases hfind : scores.find? (fun p => decide (p.1 = f)) with
    | none =>
      rw [hfind] at hfe
      rw [← hfe]
      exact ⟨le_refl 0, by norm_num⟩
    | some p =>
      rw [hfind] at hfe
      rw [← hfe]
      have hp2 : 0 ≤ p.2 := hnn p (List.mem_of_find?_eq_some hfind)
      have hple : p.2 ≤ (scores.map (fun q => q.2)).sum := by
        apply List.single_le_sum
        · intro x hx
          obtain ⟨q, hq, rfl⟩ := List.mem_map.mp hx
          exact hnn q hq
        · exact List.mem_map.mpr ⟨p, List.mem_of_find?_eq_some hfind, rfl⟩
      by_cases hz : (scores.map (fun q => q.2)).sum = 0
      · have hp0 : p.2 = 0 := le_antisymm (hz ▸ hple) hp2
        simp [importanceDenom, hz, hp0]
      · have hpos : 0 < (scores.map (fun q => q.2)).sum :=
          lt_of_le_of_ne hsumnn (Ne.symm hz)
        rw [importanceDenom, if_neg hz]
        exact ⟨div_nonneg hp2 hsumnn, (div_le_one hpos).mpr hple⟩
  · have hs := List.sorted_mergeSort htrans htotal
      (featureImportanceUnsorted featureNames scores)
    exact hs.imp (fun h => decide_eq_true_eq.mp h)
  · intro v
    apply List.sublist_mergeSort htrans htotal
    · apply List.pairwise_of_forall_mem_list
      intro a ha b hb
      have hav : a.2 = v := by
        have := (List.mem_filter.mp ha).2
        simpa using this
      have hbv : b.2 = v := by
        have := (List.mem_filter.mp hb).2
        simpa using this
      simp [hav, hbv]
    · exact List.filter_sublist _

theorem feature_importance_contract_witness :
    (∀ p ∈ ([("a", 3), ("c", 1)] : List (String × ℚ)), 0 ≤ p.2) ∧
    ((get_feature_importance ["a", "b", "c"]
        ([("a", 3), ("c", 1)] : List (String × ℚ))).Pairwise
      (fun a b => b.2 ≤ a.2) ∧
     (∀ e ∈ get_feature_importance ["a", "b", "c"]
        ([("a", 3), ("c", 1)] : List (String × ℚ)), 0 ≤ e.2 ∧ e.2 ≤ 1)) := by
  have hnn : ∀ p ∈ ([("a", 3), ("c", 1)] : List (String × ℚ)), 0 ≤ p.2 := by
    decide
  have h := feature_importance_contract ["a", "b", "c"]
    ([("a", 3), ("c", 1)] : List (String × ℚ)) hnn
  exact ⟨hnn, h.2.2.2.2.1, h.2.2.2.1⟩

/-! ### C6 : chunk-size planning target -/

/-- C6 counterexample.  The claim says `rows_per_target` is computed with
the configured `max_memory_mb` budget (default 256) as `target_mb`; the
call at line 114 hard-codes a 25 MB target instead.  With a measured
footprint of 1/100 MB per row, the planner returns 2500 rows per chunk
while the claimed formula with the default budget of 256 MB would give
25600. -/
theorem chunk_planner_ignores_budget :
    plannedRowsPerChunk 256 5000
      (fun k => (k : ℚ) * (1024 * 1024) / 100) = 2500 ∧
    estimateRowsPerMemory 5000
      (fun k => (k : ℚ) * (1024 * 1024) / 100) 256 = 25600 ∧
    (2500 : ℕ) ≠ 25600 := by
  refine ⟨?_, ?_, by decide⟩
  · show estimateRowsPerMemory 5000
      (fun k => (k : ℚ) * (1024 * 1024) / 100) 25 = 2500
    simp only [estimateRowsPerMemory]
    norm_num
    decide
  · simp only [estimateRowsPerMemory]
    norm_num
    decide

/-- C6 amended.  The chunk planner samples up to 1,000 rows, measures
bytes-per-row, computes `rows_per_target = target_mb / memory_per_row` and
floors the result at 1,000 rows per chunk — but with a fixed 25 MB target,
independent of the configured `max_memory_mb` budget. -/
theorem chunk_planner_fixed_target (mm₁ mm₂ numRows : ℕ)
    (sampleBytes : ℕ → ℚ) (h : 0 < numRows) :
    plannedRowsPerChunk mm₁ numRows sampleBytes =
      plannedRowsPerChunk mm₂ numRows sampleBytes ∧
    plannedRowsPerChunk mm₁ numRows sampleBytes =
      estimateRowsPerMemory numRows sampleBytes 25 ∧
    plannedRowsPerChunk mm₁ numRows sampleBytes =
      max 1000 (⌊(25 : ℚ) / (sampleBytes (min 1000 numRows) /
        ((min 1000 numRows : ℕ) : ℚ) / (1024 * 1024))⌋).toNat ∧
    1000 ≤ plannedRowsPerChunk mm₁ numRows sampleBytes := by
  have hpos : 0 < min 1000 numRows := by omega
  refine ⟨rfl, rfl, ?_, ?_⟩
  · show estimateRowsPerMemory numRows sampleBytes 25 = _
    simp only [estimateRowsPerMemory]
    rw [if_pos hpos]
  · show 1000 ≤ estimateRowsPerMemory numRows sampleBytes 25
    simp only [estimateRowsPerMemory]
    rw [if_pos hpos]
    exact le_max_left _ _

theorem chunk_planner_fixed_target_witness :
    0 < 5000 ∧
    (plannedRowsPerChunk 256 5000 (fun _ => 1) =
       plannedRowsPerChunk 100 5000 (fun _ => 1) ∧
     plannedRowsPerChunk 256 5000 (fun _ => 1) =
       estimateRowsPerMemory 5000 (fun _ => 1) 25 ∧
     plannedRowsPerChunk 256 5000 (fun _ => 1) =
       max 1000 (⌊(25 : ℚ) / ((fun _ => (1 : ℚ)) (min 1000 5000) /
         ((min 1000 5000 : ℕ) : ℚ) / (1024 * 1024))⌋).toNat ∧
     1000 ≤ plannedRowsPerChunk 256 5000 (fun _ => 1)) :=
  ⟨by decide,
   chunk_planner_fixed_target 256 100 5000 (fun _ => 1) (by decide)⟩

/-! ### C7 : provenance of the Categorical Encoding Map -/

theorem categorical_blockOf (t : TableModel) (o n : ℕ) :
    categoricalColumns (blockOf t o n) =
      t.names.filter (fun nm => decide (t.dtypeOf nm = Dtype.object)) := by
  unfold categoricalColumns blockOf
  rw [List.filter_map, List.map_map]
  have hcomp : ((fun c : RawCol => c.name) ∘ (fun nm =>
      (⟨nm, t.dtypeOf nm,
        (List.range n).map (fun i => t.cellAt nm (o + i))⟩ : RawCol))) =
      id := rfl
  rw [hcomp, List.map_id]
  rfl

theorem categorical_dropColumn_blockOf (t : TableModel) (dc : String)
    (o n : ℕ) :
    categoricalColumns (dropColumn (blockOf t o n) dc) =
      (t.names.filter (fun nm => !(decide (nm = dc)))).filter
        (fun nm => decide (t.dtypeOf nm = Dtype.object)) := by
  unfold categoricalColumns dropColumn blockOf
  rw [List.filter_map, List.filter_map, List.map_map]
  have hcomp : ((fun c : RawCol => c.name) ∘ (fun nm =>
      (⟨nm, t.dtypeOf nm,
        (List.range n).map (fun i => t.cellAt nm (o + i))⟩ : RawCol))) =
      id := rfl
  rw [hcomp, List.map_id]
  rfl

/-- C7 counterexample.  The Categorical Encoding Map is computed from the
held-out test block (line 281), not from the first training chunk.  In a
table whose object-typed date column parses as datetime in the test block
but not in the first chunk, the recorded map is empty while the set of
categorical columns discovered in the first chunk is `["date"]`. -/
theorem encoding_map_not_from_first_chunk :
    chunkedEncodingMap (fun s => decide (s = "d"))
      (TableModel.mk ["date", "c"]
        (fun n => if n = "date" then Dtype.object else Dtype.numeric)
        (fun n r => if n = "date" then (if r < 2 then ("x") else ("d"))
          else ("0")))
      ("date") 2 4 = [] ∧
    categoricalColumns
      (extractDateFeatures (fun s => decide (s = "d"))
        (blockOf
          (TableModel.mk ["date", "c"]
            (fun n => if n = "date" then Dtype.object else Dtype.numeric)
            (fun n r => if n = "date" then (if r < 2 then ("x") else ("d"))
              else ("0"))) 0 2)
        ("date")) = ["date"] ∧
    ([] : List String) ≠ ["date"] := by
  refine ⟨rfl, rfl, by decide⟩

/-- C7 amended.  The Categorical Encoding Map is the set of categorical
columns discovered in the held-out test block — the first block processed
by the chunked path — and this coincides with the set of categorical
columns that would be discovered in the first training chunk whenever the
date column is handled the same way in both blocks (dropped in both or
retained in both); the map is then replayed on every training chunk. -/
theorem encoding_map_matches_first_chunk (parses : String → Bool)
    (t : TableModel) (dateCol : String) (train_rows total firstLen : ℕ)
    (hdrop :
      (extractDateFeatures parses
          (blockOf t (testOffset train_rows) (testLimit total train_rows))
          dateCol =
        dropColumn
          (blockOf t (testOffset train_rows) (testLimit total train_rows))
          dateCol ∧
       extractDateFeatures parses (blockOf t 0 firstLen) dateCol =
        dropColumn (blockOf t 0 firstLen) dateCol) ∨
      (extractDateFeatures parses
          (blockOf t (testOffset train_rows) (testLimit total train_rows))
          dateCol =
        blockOf t (testOffset train_rows) (testLimit total train_rows) ∧
       extractDateFeatures parses (blockOf t 0 firstLen) dateCol =
        blockOf t 0 firstLen)) :
    chunkedEncodingMap parses t dateCol train_rows total =
      categoricalColumns
        (extractDateFeatures parses
          (blockOf t (testOffset train_rows) (testLimit total train_rows))
          dateCol) ∧
    chunkedEncodingMap parses t dateCol train_rows total =
      categoricalColumns
        (extractDateFeatures parses (blockOf t 0 firstLen) dateCol) := by
  refine ⟨rfl, ?_⟩
  show categoricalColumns
    (extractDateFeatures parses
      (blockOf t (testOffset train_rows) (testLimit total train_rows))
      dateCol) = _
  rcases hdrop with ⟨h1, h2⟩ | ⟨h1, h2⟩
  · rw [h1, h2, categorical_dropColumn_blockOf,
      categorical_dropColumn_blockOf]
  · rw [h1, h2, categorical_blockOf, categorical_blockOf]

theorem encoding_map_matches_first_chunk_witness :
    chunkedEncodingMap (fun _ => true)
      (TableModel.mk ["d1"] (fun _ => Dtype.datetime) (fun _ _ => "v"))
      ("d1") 1 2 =
      categoricalColumns
        (extractDateFeatures (fun _ => true)
          (blockOf
            (TableModel.mk ["d1"] (fun _ => Dtype.datetime)
              (fun _ _ => "v")) 0 1)
          ("d1")) :=
  (encoding_map_matches_first_chunk (fun _ => true)
    (TableModel.mk ["d1"] (fun _ => Dtype.datetime) (fun _ _ => "v"))
    ("d1") 1 2 1 (Or.inl ⟨rfl, rfl⟩)).2

/-! ### C8 : encoder step order and the fate of the date column -/

/-- C8 counterexample.  When the values of the date column do not convert to
datetime, `_extract_date_features` returns the block unchanged
(lines 487-491); the retained object-typed date column is then identified
as categorical and one-hot encoded, so a dummy column derived from the
date column (here `date_y`) appears in the encoded output, contradicting
the claim that the date column never contributes encoded columns. -/
theorem date_column_encoded_when_unparseable :
    ("date_y") ∈
      ((prepareData (extractDateFeatures (fun _ => false)
          (Block.mk [RawCol.mk ("date") Dtype.object ["x", "y"],
                     RawCol.mk ("s") Dtype.numeric ["1", "2"]])
          ("date"))).1.cols.map (fun c => c.name)) := by
  decide

/-- C8 amended.  Whenever the date column is datetime-typed or its values
all convert to datetime — the only situation in which step (1) of the code
succeeds — the encoder first drops the date column, then identifies
object-typed columns as categorical (the date column is not among them),
then one-hot encodes them with the first level dropped; every column of
the encoded output originates from a non-date source column, so the date
column neither appears in nor contributes encoded columns to the feature
matrix.  If the conversion fails the date column is retained and encoded
like any categorical column. -/
theorem encoder_date_drop_contract (parses : String → Bool) (b : Block)
    (dateCol : String)
    (hconv : ∀ c ∈ b.cols, c.name = dateCol →
      (c.dtype = Dtype.datetime ∨ c.cells.all parses = true)) :
    extractDateFeatures parses b dateCol = dropColumn b dateCol ∧
    dateCol ∉ categoricalColumns (dropColumn b dateCol) ∧
    (∀ col ∈ (prepareData (extractDateFeatures parses b dateCol)).1.cols,
      ∃ src ∈ b.cols, src.name ≠ dateCol ∧
        (col = src ∨ col ∈ dummyColumns src)) := by
  have h1 : extractDateFeatures parses b dateCol = dropColumn b dateCol := by
    cases hf : b.cols.find? (fun c => decide (c.name = dateCol)) with
    | none =>
      rw [extractDateFeatures, hf]
      have hfe : b.cols.filter (fun c => !(decide (c.name = dateCol))) =
          b.cols := by
        rw [List.filter_eq_self]
        intro c hc
        rw [List.find?_eq_none] at hf
        simpa using hf c hc
      show b = dropColumn b dateCol
      rw [dropColumn, hfe]
    | some c =>
      have hname : c.name = dateCol := by
        simpa using List.find?_some hf
      rw [extractDateFeatures, hf]
      rcases hconv c (List.mem_of_find?_eq_some hf) hname with hd | hp
      · simp only [if_pos hd]
      · by_cases hd : c.dtype = Dtype.datetime
        · simp only [if_pos hd]
        · simp only [if_neg hd, hp, if_pos]
  have h2 : dateCol ∉ categoricalColumns (dropColumn b dateCol) := by
    intro hmem
    rw [categoricalColumns] at hmem
    obtain ⟨c, hc, hcname⟩ := List.mem_map.mp hmem
    have hcf := List.mem_filter.mp hc
    have hcd : c ∈ b.cols.filter (fun x => !(decide (x.name = dateCol))) := by
      simpa [dropColumn] using hcf.1
    have := (List.mem_filter.mp hcd).2
    rw [hcname] at this
    simp at this
  have h3 : ∀ col ∈ (prepareData (dropColumn b dateCol)).1.cols,
      ∃ src ∈ b.cols, src.name ≠ dateCol ∧
        (col = src ∨ col ∈ dummyColumns src) := by
    intro col hcol
    rw [prepareData] at hcol
    rw [getDummies] at hcol
    rcases List.mem_append.mp hcol with hl | hr
    · have hmem := (List.mem_filter.mp hl).1
      have hbf : col ∈ b.cols.filter
          (fun x => !(decide (x.name = dateCol))) := by
        simpa [dropColumn] using hmem
      obtain ⟨hb, hname⟩ := List.mem_filter.mp hbf
      exact ⟨col, hb, by simpa using hname, Or.inl rfl⟩
    · obtain ⟨src, hsrc, hcol2⟩ := List.mem_flatMap.mp hr
      obtain ⟨nm, hnm, hfind⟩ := List.mem_filterMap.mp hsrc
      have hsb : src ∈ (dropColumn b dateCol).cols :=
        List.mem_of_find?_eq_some hfind
      have hbf : src ∈ b.cols.filter
          (fun x => !(decide (x.name = dateCol))) := by
        simpa [dropColumn] using hsb
      obtain ⟨hb, hname⟩ := List.mem_filter.mp hbf
      exact ⟨src, hb, by simpa using hname, Or.inr hcol2⟩
  refine ⟨h1, h2, ?_⟩
  rw [h1]
  exact h3

theorem encoder_date_drop_contract_witness :
    (∀ c ∈ (Block.mk [RawCol.mk ("date") Dtype.datetime ["2020-01-01"],
        RawCol.mk ("s") Dtype.numeric ["1"]]).cols,
      c.name = ("date" : String) →
        (c.dtype = Dtype.datetime ∨ c.cells.all (fun _ => false) = true)) ∧
    extractDateFeatures (fun _ => false)
        (Block.mk [RawCol.mk ("date") Dtype.datetime ["2020-01-01"],
          RawCol.mk ("s") Dtype.numeric ["1"]]) ("date") =
      dropColumn
        (Block.mk [RawCol.mk ("date") Dtype.datetime ["2020-01-01"],
          RawCol.mk ("s") Dtype.numeric ["1"]]) ("date") :=
  ⟨by decide,
   (encoder_date_drop_contract (fun _ => false)
     (Block.mk [RawCol.mk ("date") Dtype.datetime ["2020-01-01"],
       RawCol.mk ("s") Dtype.numeric ["1"]]) ("date") (by decide)).1⟩

/-! ### C9 : explainability sampling and percentile breakdowns -/

/-- C9.  The explainability step samples at most 100 test-block rows with
the fixed seed (the whole block when it has at most 100 rows); the
percentile breakdowns reorder the sample by ascending predicted value
(`np.argsort(y_pred)`) and, when the sample has at least 3 rows, choose
the rows at positions `int(n*0.1)`, `int(n*0.5)` and `int(n*0.9)` of that
predicted-value ranking; when the sample has fewer than 3 rows the
low/medium/high breakdowns are omitted — `shapForceRows` returns `none`
and their keys are absent — rather than raising an error. -/
theorem shap_sampling_contract (sampler : ℕ → ℕ → List ℕ)
    (testRows : List ℕ) (pred : ℕ → ℚ)
    (hs : ∀ n k, (sampler n k).length = k) :
    (shapSample sampler testRows).length = min 100 testRows.length ∧
    (testRows.length ≤ 100 → shapSample sampler testRows = testRows) ∧
    (argsortBy pred (shapSample sampler testRows)).Perm
      (shapSample sampler testRows) ∧
    (argsortBy pred (shapSample sampler testRows)).Pairwise
      (fun i j => pred i ≤ pred j) ∧
    (3 ≤ (shapSample sampler testRows).length →
      shapForceRows pred (shapSample sampler testRows) =
        some ((argsortBy pred (shapSample sampler testRows)).getD
                ((shapSample sampler testRows).length / 10) 0,
              (argsortBy pred (shapSample sampler testRows)).getD
                ((shapSample sampler testRows).length / 2) 0,
              (argsortBy pred (shapSample sampler testRows)).getD
                ((shapSample sampler testRows).length * 9 / 10) 0) ∧
      ("waterfall_plot_low") ∈
        shapPlotKeys (shapSample sampler testRows).length ∧
      ("waterfall_plot_medium") ∈
        shapPlotKeys (shapSample sampler testRows).length ∧
      ("waterfall_plot_high") ∈
        shapPlotKeys (shapSample sampler testRows).length) ∧
    ((shapSample sampler testRows).length < 3 →
      shapForceRows pred (shapSample sampler testRows) = none ∧
      ("waterfall_plot_low") ∉
        shapPlotKeys (shapSample sampler testRows).length) := by
  have htrans : ∀ a b c : ℕ, decide (pred a ≤ pred b) = true →
      decide (pred b ≤ pred c) = true →
      decide (pred a ≤ pred c) = true := by
    intro a b c hab hbc
    simp only [decide_eq_true_eq] at hab hbc ⊢
    exact le_trans hab hbc
  have htotal : ∀ a b : ℕ,
      (decide (pred a ≤ pred b) || decide (pred b ≤ pred a)) = true := by
    intro a b
    simpa using le_total (pred a) (pred b)
  have hlen : (shapSample sampler testRows).length =
      min 100 testRows.length := by
    simp only [shapSample]
    by_cases hc : min 100 testRows.length < testRows.length
    · rw [if_pos hc, List.length_map, hs]
    · rw [if_neg hc]
      omega
  refine ⟨hlen, ?_, List.mergeSort_perm _ _, ?_, ?_, ?_⟩
  · intro hle
    simp only [shapSample]
    rw [if_neg (by omega)]
  · have hsorted := List.sorted_mergeSort htrans htotal
      (shapSample sampler testRows)
    exact hsorted.imp (fun h => decide_eq_true_eq.mp h)
  · intro h3
    refine ⟨by rw [shapForceRows, if_pos h3], ?_, ?_, ?_⟩ <;>
      · have h0 : 0 < (shapSample sampler testRows).length := by omega
        simp [shapPlotKeys, h0, h3]
  · intro h3
    constructor
    · rw [shapForceRows, if_neg (by omega)]
    · intro hmem
      simp [shapPlotKeys] at hmem
      omega

theorem shap_sampling_contract_witness :
    (shapSample (fun _ k => List.range k) [5, 6, 7]).length =
      min 100 ([5, 6, 7] : List ℕ).length ∧
    (argsortBy (fun i => (i : ℚ)) (shapSample (fun _ k => List.range k)
        [5, 6, 7])).Pairwise (fun i j => ((i : ℕ) : ℚ) ≤ ((j : ℕ) : ℚ)) ∧
    shapForceRows (fun i => (i : ℚ))
        (shapSample (fun _ k => List.range k) [5, 6, 7]) =
      some ((argsortBy (fun i => (i : ℚ))
               (shapSample (fun _ k => List.range k) [5, 6, 7])).getD
              ((shapSample (fun _ k => List.range k) [5, 6, 7]).length / 10)
              0,
            (argsortBy (fun i => (i : ℚ))
               (shapSample (fun _ k => List.range k) [5, 6, 7])).getD
              ((shapSample (fun _ k => List.range k) [5, 6, 7]).length / 2)
              0,
            (argsortBy (fun i => (i : ℚ))
               (shapSample (fun _ k => List.range k) [5, 6, 7])).getD
              ((shapSample (fun _ k => List.range k)
                  [5, 6, 7]).length * 9 / 10) 0) := by
  have hs : ∀ n k, ((fun (_ : ℕ) (k : ℕ) => List.range k) n k).length = k := by
    intro n k
    simp
  have h := shap_sampling_contract (fun _ k => List.range k) [5, 6, 7]
    (fun i => (i : ℚ)) hs
  have h3 : 3 ≤ (shapSample (fun _ k => List.range k) [5, 6, 7]).length := by
    rw [h.1]
    decide
  exact ⟨h.1, h.2.2.2.1, (h.2.2.2.2.1 h3).1⟩

/-! ### C10 : fixed-seed determinism of all random selections -/

/-- C10.  Every data-dependent random selection of `process_parquet_bytes`
— the full-batch train/test split, the per-chunk training-metric sample
indices, and the explainability sample rows — consults the random source
only at the literal seed 42 (the XGBoost parameters likewise fix
`random_state: 42`).  Hence two runs on identical inputs make identical
selections: the outcome depends only on the seed-42 behaviour of the
random source, so any two oracles agreeing at seed 42 produce equal chunk
plans, sampled indices and metrics inputs. -/
theorem run_selections_deterministic (o₁ o₂ : RandomOracle) (nRows : ℕ)
    (test_size : ℚ) (chunkLens : List ℕ) (nTest : ℕ)
    (h42 : o₁ 42 = o₂ 42) :
    runSelections o₁ nRows test_size chunkLens nTest =
      runSelections o₂ nRows test_size chunkLens nTest := by
  rw [runSelections, runSelections, h42]

theorem run_selections_deterministic_witness :
    ((fun _ : ℕ =>
        SeededSampler.mk (fun _ _ => ([], [])) (fun _ _ => [])
          (fun _ _ => [])) 42 =
      (fun s : ℕ =>
        if s = 42 then
          SeededSampler.mk (fun _ _ => ([], [])) (fun _ _ => [])
            (fun _ _ => [])
        else
          SeededSampler.mk (fun _ _ => ([], [])) (fun _ k => List.range k)
            (fun _ _ => [])) 42) ∧
    runSelections
        (fun _ =>
          SeededSampler.mk (fun _ _ => ([], [])) (fun _ _ => [])
            (fun _ _ => [])) 3 (1 / 5) [2] 1 =
      runSelections
        (fun s =>
          if s = 42 then
            SeededSampler.mk (fun _ _ => ([], [])) (fun _ _ => [])
              (fun _ _ => [])
          else
            SeededSampler.mk (fun _ _ => ([], [])) (fun _ k => List.range k)
              (fun _ _ => [])) 3 (1 / 5) [2] 1 := by
  have h42 : (fun _ : ℕ =>
      SeededSampler.mk (fun _ _ => ([], [])) (fun _ _ => [])
        (fun _ _ => [])) 42 =
      (fun s : ℕ =>
        if s = 42 then
          SeededSampler.mk (fun _ _ => ([], [])) (fun _ _ => [])
            (fun _ _ => [])
        else
          SeededSampler.mk (fun _ _ => ([], [])) (fun _ k => List.range k)
            (fun _ _ => [])) 42 := by
    simp
  exact ⟨h42, run_selections_deterministic _ _ 3 (1 / 5) [2] 1 h42⟩

end ChunkedProcessor
